import Mathlib

/-!
Shallow embedding of `netlist.py`: a SPICE-style netlist parser/serializer.
Python strings are modelled as `List Char` (`PStr`); Python's line-oriented
`Netlist.read` loop becomes an explicit state machine (`RState`, `processLine`,
`runLines`); every Python exception becomes an explicit error constructor.
-/

/-- A Python string, modelled as its character sequence. -/
abbrev PStr := List Char

/-- Convert a Lean string literal to the `PStr` model. -/
def pstr (s : String) : PStr := s.data

/-- Python `line.startswith(p)`. -/
def startsW (l p : PStr) : Bool := p.isPrefixOf l

/-- Python `line.find(sub) != -1` (substring containment). -/
def containsSub : PStr → PStr → Bool
  | [], sub => sub.isPrefixOf ([] : PStr)
  | c :: rest, sub => sub.isPrefixOf (c :: rest) || containsSub rest sub

/-- Helper for `pySplit`: accumulates the current (reversed) token. -/
def pySplitAux : PStr → PStr → List PStr
  | acc, [] => if acc = [] then [] else [acc.reverse]
  | acc, c :: rest =>
    if c.isWhitespace then
      if acc = [] then pySplitAux [] rest else acc.reverse :: pySplitAux [] rest
    else pySplitAux (c :: acc) rest

/-- Python `line.split()`: split on runs of whitespace, discarding empties. -/
def pySplit (l : PStr) : List PStr := pySplitAux [] l

/-- Python `s.strip()`: remove leading and trailing whitespace. -/
def pyStrip (l : PStr) : PStr :=
  ((l.dropWhile Char.isWhitespace).reverse.dropWhile Char.isWhitespace).reverse

/-- Helper for `afterFirstColon`: the suffix after the first colon, if any. -/
def afterFirstColonAux : PStr → Option PStr
  | [] => none
  | c :: rest => if c = ':' then some rest else afterFirstColonAux rest

/-- Python `s.split(':', maxsplit=1)[-1]`: everything after the first colon,
or the whole string when it has no colon. -/
def afterFirstColon (l : PStr) : PStr := (afterFirstColonAux l).getD l

/-- Helper for `pyReadlines`: accumulates the current (reversed) line. -/
def pyReadlinesAux : PStr → PStr → List PStr
  | acc, [] => if acc = [] then [] else [acc.reverse]
  | acc, c :: rest =>
    if c = '\n' then (acc.reverse ++ [c]) :: pyReadlinesAux [] rest
    else pyReadlinesAux (c :: acc) rest

/-- Python `file.readlines()` on the given file content: split after each
newline, keeping the newline at the end of each line. -/
def pyReadlines (content : PStr) : List PStr := pyReadlinesAux [] content

/-- Number of `=` characters in a token (`token.count` behaviour used to
decide whether `k, v = token.split('=')` unpacks). -/
def eqCount (t : PStr) : Nat := (t.filter (fun c => decide (c = '='))).length

/-- Python `k, v = token.split('=')`: succeeds exactly when the token holds
one `=`, returning the parts before and after it. -/
def splitOnEq (t : PStr) : Option (PStr × PStr) :=
  if eqCount t = 1 then
    some (t.takeWhile (fun c => decide (c ≠ '=')),
          (t.dropWhile (fun c => decide (c ≠ '='))).tail)
  else none

/-- Builds the token `k=v` from a key/value pair (used to state claims about
well-formed extra-attribute tokens). -/
def encodeKV (q : PStr × PStr) : PStr := q.1 ++ '=' :: q.2

/-- The two device variants of `netlist.py`. -/
inductive DKind
  | diode
  | transistor
deriving DecidableEq

/-- A device: its variant plus its `__dict__`, an insertion-ordered list of
attribute-name/value pairs. -/
structure Device where
  kind : DKind
  attrs : List (PStr × PStr)
deriving DecidableEq

/-- `Device.positional_attributes` from the source: one combined set shared
by both variants. -/
def positional_attributes : List PStr :=
  [pstr "name", pstr "PLUS", pstr "MINUS", pstr "Model",
   pstr "S", pstr "D", pstr "G", pstr "B"]

/-- Python `obj.__setattr__(k, v)` on an ordered `__dict__` (also Python
`dict[k] = v`): replace in place when the key exists, else append. -/
def dictSet (l : List (PStr × PStr)) (k v : PStr) : List (PStr × PStr) :=
  if l.any (fun p => decide (p.1 = k)) then
    l.map (fun p => if p.1 = k then (k, v) else p)
  else l ++ [(k, v)]

/-- The fixed positional attribute names of `Transistor.__init__`, in
declaration order. -/
def transistor_attr_names : List PStr :=
  [pstr "name", pstr "S", pstr "D", pstr "G", pstr "B", pstr "Model"]

/-- The fixed positional attribute names of `Diode.__init__`, in declaration
order. -/
def diode_attr_names : List PStr :=
  [pstr "name", pstr "PLUS", pstr "MINUS", pstr "Model"]

/-- The Python parameter names of `Transistor.__init__` (a keyword argument
with one of these names raises `TypeError` at the call site). -/
def transistor_param_names : List PStr :=
  [pstr "name", pstr "source", pstr "drain", pstr "gate", pstr "base", pstr "model"]

/-- The Python parameter names of `Diode.__init__`. -/
def diode_param_names : List PStr :=
  [pstr "name", pstr "plus", pstr "minus", pstr "model"]

/-- `Transistor(*pos, **kwargs)`: positional attributes in declaration order,
then each keyword argument applied by `__setattr__`. -/
def transistorMk (pos : List PStr) (kwargs : List (PStr × PStr)) : Device :=
  Device.mk DKind.transistor
    (kwargs.foldl (fun a q => dictSet a q.1 q.2) (transistor_attr_names.zip pos))

/-- `Diode(*pos, **kwargs)`. -/
def diodeMk (pos : List PStr) (kwargs : List (PStr × PStr)) : Device :=
  Device.mk DKind.diode
    (kwargs.foldl (fun a q => dictSet a q.1 q.2) (diode_attr_names.zip pos))

/-- Name of a variant, as printed by `__repr__`. -/
def kindName : DKind → PStr
  | DKind.diode => pstr "Diode"
  | DKind.transistor => pstr "Transistor"

/-- `Device.__repr__` (the spec's `format()`): variant name, colon, then each
`__dict__` entry in order — the bare value when the attribute name is in the
combined `positional_attributes` set, else `key=value`. -/
def Device.format (d : Device) : PStr :=
  kindName d.kind ++ pstr ": " ++
    List.intercalate (pstr " ")
      (d.attrs.map (fun p =>
        if p.1 ∈ positional_attributes then p.2 else p.1 ++ '=' :: p.2))

/-- A dynamically typed Python argument: a string, or anything else. -/
inductive PyVal
  | str (s : PStr)
  | nonStr
deriving DecidableEq

/-- Errors raised by `Device.set_attribute`. -/
inductive AttrErr
  | typeErrorName
  | typeErrorValue
  | unknownAttribute (n : PStr)
deriving DecidableEq

/-- `Device.set_attribute`: both arguments must be strings, the name must
already be a `__dict__` key, then the value is overwritten in place. -/
def Device.set_attribute (d : Device) (an av : PyVal) : Except AttrErr Device :=
  match an with
  | PyVal.nonStr => Except.error AttrErr.typeErrorName
  | PyVal.str n =>
    match av with
    | PyVal.nonStr => Except.error AttrErr.typeErrorValue
    | PyVal.str v =>
      if d.attrs.any (fun p => decide (p.1 = n)) then
        Except.ok (Device.mk d.kind (dictSet d.attrs n v))
      else Except.error (AttrErr.unknownAttribute n)

/-- First-match association lookup on a `__dict__` (Python attribute read). -/
def lookupA : List (PStr × PStr) → PStr → Option PStr
  | [], _ => none
  | p :: rest, k => if p.1 = k then some p.2 else lookupA rest k

/-- Errors raised while parsing one device line. -/
inductive DevErr
  | valueError
  | typeErrorArity
  | typeErrorDupKeyword
deriving DecidableEq

/-- The `for elem in params[k:]` loop of `read_transistor`/`read_diode`:
each remaining token must split as `k=v`, collected into a dict. -/
def buildKw : List PStr → List (PStr × PStr) → Except DevErr (List (PStr × PStr))
  | [], acc => Except.ok acc
  | t :: rest, acc =>
    match splitOnEq t with
    | none => Except.error DevErr.valueError
    | some (k, v) => buildKw rest (dictSet acc k v)

/-- `Netlist.read_transistor`: whitespace-split, first 6 tokens positional,
the rest `k=v` extras. -/
def read_transistor (line : PStr) : Except DevErr Device :=
  let params := pySplit line
  if 6 ≤ params.length then
    match buildKw (params.drop 6) [] with
    | Except.error e => Except.error e
    | Except.ok kw =>
      if kw.any (fun q => decide (q.1 ∈ transistor_param_names)) then
        Except.error DevErr.typeErrorDupKeyword
      else Except.ok (transistorMk (params.take 6) kw)
  else Except.error DevErr.typeErrorArity

/-- `Netlist.read_diode`: whitespace-split, first 4 tokens positional, the
rest `k=v` extras. -/
def read_diode (line : PStr) : Except DevErr Device :=
  let params := pySplit line
  if 4 ≤ params.length then
    match buildKw (params.drop 4) [] with
    | Except.error e => Except.error e
    | Except.ok kw =>
      if kw.any (fun q => decide (q.1 ∈ diode_param_names)) then
        Except.error DevErr.typeErrorDupKeyword
      else Except.ok (diodeMk (params.take 4) kw)
  else Except.error DevErr.typeErrorArity

/-- A cell: `Cell.__init__` deep-copies the instance list, so `instances`
holds the device values captured at construction time. -/
structure Cell where
  name : PStr
  description : PStr
  equation : PStr
  pin_order : List PStr
  instances : List Device
deriving DecidableEq

/-- `Cell.get_pin_order`: pins joined by single spaces. -/
def Cell.get_pin_order (c : Cell) : PStr := List.intercalate (pstr " ") c.pin_order

/-- The `valid_pins` collection of `Cell.set_pin_order`: values of every
`__dict__` entry whose key is in `positional_attributes - {name, Model}`,
over all instances. -/
def validPins (c : Cell) : List PStr :=
  c.instances.foldr
    (fun d acc =>
      (d.attrs.filter (fun p =>
        decide (p.1 ∈ [pstr "PLUS", pstr "MINUS", pstr "S", pstr "D", pstr "G", pstr "B"]))).map Prod.snd
        ++ acc)
    []

/-- Error raised by `Cell.set_pin_order` for unwired pin names. -/
inductive PinErr
  | invalidPin (off : List PStr)
deriving DecidableEq

/-- `Cell.set_pin_order`: split the argument on whitespace; when every
candidate is a wired terminal value replace `pin_order`, else raise with the
set of offending names (modelled as a deduplicated list). -/
def Cell.set_pin_order (c : Cell) (text : PStr) : Except PinErr Cell :=
  let new := pySplit text
  if new.all (fun p => decide (p ∈ validPins c)) then
    Except.ok (Cell.mk c.name c.description c.equation new c.instances)
  else
    Except.error (PinErr.invalidPin ((new.filter (fun p => decide (p ∉ validPins c))).dedup))

/-- `Cell.get_all_instances`: newline-joined `format()` of each instance. -/
def Cell.get_all_instances (c : Cell) : PStr :=
  List.intercalate (pstr "\n") (c.instances.map Device.format)

/-- The four completeness booleans of `valid_spice_netlist`, in dict order. -/
structure Flags where
  description : Bool
  equation : Bool
  subckt : Bool
  instances : Bool
deriving DecidableEq

/-- Python `all(valid_spice_netlist.values())`. -/
def allFlags (f : Flags) : Bool := f.description && f.equation && f.subckt && f.instances

/-- `[k for k, v in valid_spice_netlist.items() if v == False]`. -/
def missingAspects (f : Flags) : List PStr :=
  (if f.description then [] else [pstr "description"]) ++
  (if f.equation then [] else [pstr "equation"]) ++
  (if f.subckt then [] else [pstr "subckt"]) ++
  (if f.instances then [] else [pstr "instances"])

/-- The local variables of `Netlist.read`'s line loop.  `Option` fields model
Python locals that may still be unbound; `finished` is reset at the top of
every iteration. -/
structure RState where
  cell_list : List Cell
  instArg : List Device
  flags : Flags
  cell_name : Option PStr
  description : Option PStr
  equation : Option PStr
  pin_order : Option (List PStr)
  finished : Option Bool
deriving DecidableEq

/-- Every exception `Netlist.read` can raise. -/
inductive ReadErr
  | unterminated (cellName : PStr)
  | unboundLocal
  | missing (aspects : List PStr)
  | badLine (line : PStr)
  | device (e : DevErr)
  | indexError
  | noTerminator
deriving DecidableEq

/-- The `line.startswith('*')` branch: unterminated-block check, then the
`Description` / `Equation` keyword capture. -/
def starBranch (s : RState) (line : PStr) : Except ReadErr RState :=
  if s.flags.subckt || s.flags.instances then
    match s.cell_name with
    | some n => Except.error (ReadErr.unterminated n)
    | none => Except.error ReadErr.unboundLocal
  else if containsSub line (pstr "Description") then
    Except.ok { s with
      flags := { s.flags with description := true },
      description := some (pyStrip (afterFirstColon line)) }
  else if containsSub line (pstr "Equation") then
    Except.ok { s with
      flags := { s.flags with equation := true },
      equation := some (pyStrip (afterFirstColon line)) }
  else Except.ok s

/-- The `line.startswith('.subckt')` branch: token 1 is the cell name,
tokens 2.. the initial pin order. -/
def subcktBranch (s : RState) (line : PStr) : Except ReadErr RState :=
  match pySplit line with
  | _ :: n :: rest =>
    Except.ok { s with
      flags := { s.flags with subckt := true },
      cell_name := some n,
      pin_order := some rest }
  | _ => Except.error ReadErr.indexError

/-- The `line.startswith('M')` branch. -/
def mBranch (s : RState) (line : PStr) : Except ReadErr RState :=
  match read_transistor line with
  | Except.ok d =>
    Except.ok { s with
      flags := { s.flags with instances := true },
      instArg := s.instArg ++ [d] }
  | Except.error e => Except.error (ReadErr.device e)

/-- The `line.startswith('D')` branch. -/
def dBranch (s : RState) (line : PStr) : Except ReadErr RState :=
  match read_diode line with
  | Except.ok d =>
    Except.ok { s with
      flags := { s.flags with instances := true },
      instArg := s.instArg ++ [d] }
  | Except.error e => Except.error (ReadErr.device e)

/-- The `line.startswith('.ends')` branch: either raise naming the missing
aspects, or append the finished `Cell` (deep-copying the accumulator), clear
the accumulator and reset the flags. -/
def endsBranch (s : RState) : Except ReadErr RState :=
  let s := { s with finished := some true }
  if allFlags s.flags then
    match s.cell_name, s.description, s.equation, s.pin_order with
    | some n, some de, some eq, some po =>
      Except.ok { s with
        cell_list := s.cell_list ++ [Cell.mk n de eq po s.instArg],
        instArg := [],
        flags := Flags.mk false false false false }
    | _, _, _, _ => Except.error ReadErr.unboundLocal
  else Except.error (ReadErr.missing (missingAspects s.flags))

/-- The final `else` arm: only the exact line `"\n"` is a no-op; anything
else raises quoting the stripped line. -/
def otherBranch (s : RState) (line : PStr) : Except ReadErr RState :=
  if line = pstr "\n" then Except.ok s
  else Except.error (ReadErr.badLine (pyStrip line))

/-- One iteration of the `for line in lines` loop.  `finished` is reset to
`False` at the top of every iteration, exactly as in the source. -/
def processLine (s : RState) (line : PStr) : Except ReadErr RState :=
  let t := { s with finished := some false }
  if startsW line (pstr "*") then starBranch t line
  else if startsW line (pstr ".subckt") then subcktBranch t line
  else if startsW line (pstr "M") then mBranch t line
  else if startsW line (pstr "D") then dBranch t line
  else if startsW line (pstr ".ends") then endsBranch t
  else otherBranch t line

/-- Run the loop over all lines, stopping at the first exception. -/
def runLines : RState → List PStr → Except ReadErr RState
  | s, [] => Except.ok s
  | s, l :: rest =>
    match processLine s l with
    | Except.error e => Except.error e
    | Except.ok t => runLines t rest

/-- The locals of `Netlist.read` before the loop starts. -/
def initState : RState :=
  RState.mk [] [] (Flags.mk false false false false) none none none none none

/-- The `if not finished` check after the loop; on empty input `finished` is
an unbound local, which in Python raises on its own. -/
def finalCheck (s : RState) : Except ReadErr (List Cell) :=
  match s.finished with
  | some true => Except.ok s.cell_list
  | some false => Except.error ReadErr.noTerminator
  | none => Except.error ReadErr.unboundLocal

/-- `Netlist.read` on an already-split line sequence, returning the cell
list of a fresh `Netlist`. -/
def readLines (lines : List PStr) : Except ReadErr (List Cell) :=
  match runLines initState lines with
  | Except.error e => Except.error e
  | Except.ok s => finalCheck s

/-- One serialized device line of `Netlist.write`: `str(device)` with the
`"Kind: "` prefix cut at the first colon, stripped, plus a newline. -/
def deviceLine (d : Device) : PStr := pyStrip (afterFirstColon (Device.format d)) ++ pstr "\n"

/-- The lines `Netlist.write` emits for one cell; the final element is the
single string `".ends\n\n"`. -/
def writeCellLines (c : Cell) : List PStr :=
  [pstr "*      Description : " ++ c.description ++ pstr "\n",
   pstr "*      Equation    : " ++ c.equation ++ pstr "\n",
   pstr ".subckt " ++ c.name ++ pstr " " ++ Cell.get_pin_order c ++ pstr "\n"]
  ++ c.instances.map deviceLine
  ++ [pstr ".ends\n\n"]

/-- All lines `Netlist.write` passes to `writelines`. -/
def writeLines (cells : List Cell) : List PStr := (cells.map writeCellLines).flatten

/-- The file content `Netlist.write` produces. -/
def writeContent (cells : List Cell) : PStr := (writeLines cells).flatten

/-- Two successful `startswith` tests on the same line have comparable
prefixes. -/
lemma startsW_total (l p q : PStr) (hp : startsW l p = true) (hq : startsW l q = true) :
    p <+: q ∨ q <+: p := by
  simp only [startsW, List.isPrefixOf_iff_prefix] at hp hq
  exact List.prefix_or_prefix_of_prefix hp hq

/-- A line starting with `p` cannot also start with an incomparable `q`. -/
lemma startsW_disj (l p q : PStr) (hpq : ¬ p <+: q) (hqp : ¬ q <+: p)
    (hp : startsW l p = true) : startsW l q = false := by
  cases hq : startsW l q
  · rfl
  · rcases startsW_total l p q hp hq with h | h
    · exact absurd h hpq
    · exact absurd h hqp

lemma processLine_star (s : RState) (l : PStr) (h : startsW l (pstr "*") = true) :
    processLine s l = starBranch { s with finished := some false } l := by
  simp [processLine, h]

lemma processLine_subckt (s : RState) (l : PStr) (h : startsW l (pstr ".subckt") = true) :
    processLine s l = subcktBranch { s with finished := some false } l := by
  have h1 : startsW l (pstr "*") = false :=
    startsW_disj l (pstr ".subckt") (pstr "*") (by decide) (by decide) h
  simp [processLine, h1, h]

lemma processLine_m (s : RState) (l : PStr) (h : startsW l (pstr "M") = true) :
    processLine s l = mBranch { s with finished := some false } l := by
  have h1 : startsW l (pstr "*") = false :=
    startsW_disj l (pstr "M") (pstr "*") (by decide) (by decide) h
  have h2 : startsW l (pstr ".subckt") = false :=
    startsW_disj l (pstr "M") (pstr ".subckt") (by decide) (by decide) h
  simp [processLine, h1, h2, h]

lemma processLine_d (s : RState) (l : PStr) (h : startsW l (pstr "D") = true) :
    processLine s l = dBranch { s with finished := some false } l := by
  have h1 : startsW l (pstr "*") = false :=
    startsW_disj l (pstr "D") (pstr "*") (by decide) (by decide) h
  have h2 : startsW l (pstr ".subckt") = false :=
    startsW_disj l (pstr "D") (pstr ".subckt") (by decide) (by decide) h
  have h3 : startsW l (pstr "M") = false :=
    startsW_disj l (pstr "D") (pstr "M") (by decide) (by decide) h
  simp [processLine, h1, h2, h3, h]

lemma processLine_ends (s : RState) (l : PStr) (h : startsW l (pstr ".ends") = true) :
    processLine s l = endsBranch { s with finished := some false } := by
  have h1 : startsW l (pstr "*") = false :=
    startsW_disj l (pstr ".ends") (pstr "*") (by decide) (by decide) h
  have h2 : startsW l (pstr ".subckt") = false :=
    startsW_disj l (pstr ".ends") (pstr ".subckt") (by decide) (by decide) h
  have h3 : startsW l (pstr "M") = false :=
    startsW_disj l (pstr ".ends") (pstr "M") (by decide) (by decide) h
  have h4 : startsW l (pstr "D") = false :=
    startsW_disj l (pstr ".ends") (pstr "D") (by decide) (by decide) h
  simp [processLine, h1, h2, h3, h4, h]

lemma processLine_other (s : RState) (l : PStr)
    (h1 : startsW l (pstr "*") = false) (h2 : startsW l (pstr ".subckt") = false)
    (h3 : startsW l (pstr "M") = false) (h4 : startsW l (pstr "D") = false)
    (h5 : startsW l (pstr ".ends") = false) :
    processLine s l = otherBranch { s with finished := some false } l := by
  simp [processLine, h1, h2, h3, h4, h5]

lemma starBranch_finished (s : RState) (l : PStr) (t : RState)
    (h : starBranch s l = Except.ok t) : t.finished = s.finished := by
  unfold starBranch at h
  split at h
  · split at h <;> simp_all
  · split at h
    · injection h with h
      subst h
      rfl
    · split at h
      · injection h with h
        subst h
        rfl
      · injection h with h
        subst h
        rfl

lemma subcktBranch_finished (s : RState) (l : PStr) (t : RState)
    (h : subcktBranch s l = Except.ok t) : t.finished = s.finished := by
  unfold subcktBranch at h
  split at h
  · injection h with h
    subst h
    rfl
  · simp_all

lemma mBranch_finished (s : RState) (l : PStr) (t : RState)
    (h : mBranch s l = Except.ok t) : t.finished = s.finished := by
  unfold mBranch at h
  split at h
  · injection h with h
    subst h
    rfl
  · simp_all

lemma dBranch_finished (s : RState) (l : PStr) (t : RState)
    (h : dBranch s l = Except.ok t) : t.finished = s.finished := by
  unfold dBranch at h
  split at h
  · injection h with h
    subst h
    rfl
  · simp_all

lemma endsBranch_finished (s : RState) (t : RState)
    (h : endsBranch s = Except.ok t) : t.finished = some true := by
  simp only [endsBranch] at h
  split at h
  · split at h
    · injection h with h
      subst h
      rfl
    · simp_all
  · simp_all

lemma otherBranch_finished (s : RState) (l : PStr) (t : RState)
    (h : otherBranch s l = Except.ok t) : t.finished = s.finished := by
  unfold otherBranch at h
  split at h
  · injection h with h
    subst h
    rfl
  · simp_all

/-- After a successfully processed line, `finished` records exactly whether
that line started with `.ends` (every other line resets it). -/
lemma processLine_finished (s : RState) (l : PStr) (t : RState)
    (h : processLine s l = Except.ok t) : t.finished = some (startsW l (pstr ".ends")) := by
  by_cases c1 : startsW l (pstr "*") = true
  · rw [processLine_star s l c1] at h
    rw [starBranch_finished _ _ _ h,
        startsW_disj l (pstr "*") (pstr ".ends") (by decide) (by decide) c1]
  · by_cases c2 : startsW l (pstr ".subckt") = true
    · rw [processLine_subckt s l c2] at h
      rw [subcktBranch_finished _ _ _ h,
          startsW_disj l (pstr ".subckt") (pstr ".ends") (by decide) (by decide) c2]
    · by_cases c3 : startsW l (pstr "M") = true
      · rw [processLine_m s l c3] at h
        rw [mBranch_finished _ _ _ h,
            startsW_disj l (pstr "M") (pstr ".ends") (by decide) (by decide) c3]
      · by_cases c4 : startsW l (pstr "D") = true
        · rw [processLine_d s l c4] at h
          rw [dBranch_finished _ _ _ h,
              startsW_disj l (pstr "D") (pstr ".ends") (by decide) (by decide) c4]
        · by_cases c5 : startsW l (pstr ".ends") = true
          · rw [processLine_ends s l c5] at h
            rw [endsBranch_finished _ _ h, c5]
          · rw [processLine_other s l (by simpa using c1) (by simpa using c2)
                (by simpa using c3) (by simpa using c4) (by simpa using c5)] at h
            rw [otherBranch_finished _ _ _ h]
            simp [Bool.not_eq_true] at c5
            rw [c5]

/-- Splitting a run of the loop at a list append. -/
lemma runLines_append (a b : List PStr) : ∀ s : RState,
    runLines s (a ++ b) =
      match runLines s a with
      | Except.error e => Except.error e
      | Except.ok t => runLines t b := by
  induction a with
  | nil => intro s; rfl
  | cons l rest ih =>
    intro s
    cases h : processLine s l with
    | error e => simp [runLines, h]
    | ok t => simp [runLines, h, ih t]

/-- Setting a key absent from the dict appends it. -/
lemma dictSet_fresh (l : List (PStr × PStr)) (k v : PStr)
    (h : ∀ p ∈ l, p.1 ≠ k) : dictSet l k v = l ++ [(k, v)] := by
  have hany : l.any (fun p => decide (p.1 = k)) = false := by
    simp only [List.any_eq_false, decide_eq_true_eq]
    exact h
  simp [dictSet, hany]

/-- Folding `__setattr__` over keyword arguments whose keys are fresh and
pairwise distinct appends them in order. -/
lemma foldl_dictSet_fresh (kvs : List (PStr × PStr)) : ∀ base : List (PStr × PStr),
    (∀ q ∈ kvs, ∀ p ∈ base, q.1 ≠ p.1) → (kvs.map Prod.fst).Nodup →
    kvs.foldl (fun a q => dictSet a q.1 q.2) base = base ++ kvs := by
  induction kvs with
  | nil => intro base _ _; simp
  | cons q rest ih =>
    intro base hfresh hnd
    have hb : dictSet base q.1 q.2 = base ++ [(q.1, q.2)] :=
      dictSet_fresh base q.1 q.2 (fun p hp he => hfresh q (by simp) p hp he.symm)
    simp only [List.map_cons, List.nodup_cons] at hnd
    have hrest : rest.foldl (fun a r => dictSet a r.1 r.2) (base ++ [(q.1, q.2)]) =
        (base ++ [(q.1, q.2)]) ++ rest := by
      apply ih
      · intro q' hq' p hp
        rcases List.mem_append.1 hp with hp | hp
        · exact hfresh q' (by simp [hq']) p hp
        · simp only [List.mem_singleton] at hp
          subst hp
          intro he
          exact hnd.1 (he ▸ List.mem_map_of_mem Prod.fst hq')
      · exact hnd.2
    calc (q :: rest).foldl (fun a r => dictSet a r.1 r.2) base
        = rest.foldl (fun a r => dictSet a r.1 r.2) (dictSet base q.1 q.2) := by
          rw [List.foldl_cons]
      _ = (base ++ [(q.1, q.2)]) ++ rest := by rw [hb, hrest]
      _ = base ++ q :: rest := by simp

/-- A token without `=` has `eqCount` zero. -/
lemma eqCount_zero (l : PStr) (h : '=' ∉ l) : eqCount l = 0 := by
  simp only [eqCount, List.length_eq_zero]
  rw [List.filter_eq_nil_iff]
  intro a ha
  simp only [decide_eq_true_eq]
  rintro rfl
  exact h ha

/-- `eqCount` distributes over append. -/
lemma eqCount_append (a b : PStr) : eqCount (a ++ b) = eqCount a + eqCount b := by
  simp [eqCount, List.filter_append]

/-- A well-formed `k=v` token has exactly one `=`. -/
lemma eqCount_encode (k v : PStr) (hk : '=' ∉ k) (hv : '=' ∉ v) :
    eqCount (k ++ '=' :: v) = 1 := by
  have h0 : eqCount v = 0 := eqCount_zero v hv
  simp only [eqCount] at h0
  rw [eqCount_append, eqCount_zero k hk, Nat.zero_add]
  simp [eqCount, List.filter_cons, h0]

lemma takeWhile_all_append (p : Char → Bool) (k : PStr) (x : Char) (v : PStr)
    (hk : ∀ c ∈ k, p c = true) (hx : p x = false) :
    (k ++ x :: v).takeWhile p = k := by
  induction k with
  | nil => simp [List.takeWhile_cons, hx]
  | cons c rest ih =>
    simp [List.takeWhile_cons, hk c (by simp),
          ih (fun c hc => hk c (by simp [hc]))]

lemma dropWhile_all_append (p : Char → Bool) (k : PStr) (x : Char) (v : PStr)
    (hk : ∀ c ∈ k, p c = true) (hx : p x = false) :
    (k ++ x :: v).dropWhile p = x :: v := by
  induction k with
  | nil => simp [List.dropWhile_cons, hx]
  | cons c rest ih =>
    simp [List.dropWhile_cons, hk c (by simp),
          ih (fun c hc => hk c (by simp [hc]))]

/-- Splitting a well-formed `k=v` token succeeds with the expected parts. -/
lemma splitOnEq_encode (k v : PStr) (hk : '=' ∉ k) (hv : '=' ∉ v) :
    splitOnEq (k ++ '=' :: v) = some (k, v) := by
  have hp : ∀ c ∈ k, (fun c => decide (c ≠ '=')) c = true := by
    intro c hc
    simp only [decide_eq_true_eq]
    rintro rfl
    exact hk hc
  have hx : (fun c => decide (c ≠ '=')) '=' = false := by simp
  simp only [splitOnEq, eqCount_encode k v hk hv, if_pos]
  rw [takeWhile_all_append _ k '=' v hp hx, dropWhile_all_append _ k '=' v hp hx]
  rfl

/-- `splitOnEq` only succeeds on tokens with exactly one `=`. -/
lemma splitOnEq_some_count (t : PStr) (k v : PStr) (h : splitOnEq t = some (k, v)) :
    eqCount t = 1 := by
  by_cases hc : eqCount t = 1
  · exact hc
  · simp [splitOnEq, hc] at h

/-- The keyword loop succeeds on a list of well-formed tokens, folding the
pairs into the dict in order. -/
lemma buildKw_encoded (kvs : List (PStr × PStr)) : ∀ acc,
    (∀ q ∈ kvs, '=' ∉ q.1 ∧ '=' ∉ q.2) →
    buildKw (kvs.map encodeKV) acc =
      Except.ok (kvs.foldl (fun a q => dictSet a q.1 q.2) acc) := by
  induction kvs with
  | nil => intro acc _; rfl
  | cons q rest ih =>
    intro acc h
    have hq := h q (by simp)
    show buildKw (encodeKV q :: rest.map encodeKV) acc = _
    rw [buildKw, encodeKV, splitOnEq_encode q.1 q.2 hq.1 hq.2]
    exact ih _ (fun q' hq' => h q' (by simp [hq']))

/-- The keyword loop fails with `ValueError` as soon as any token does not
hold exactly one `=`. -/
lemma buildKw_err (ts : List PStr) : ∀ acc, (∃ t ∈ ts, eqCount t ≠ 1) →
    buildKw ts acc = Except.error DevErr.valueError := by
  induction ts with
  | nil => intro acc h; simp at h
  | cons t rest ih =>
    intro acc h
    by_cases hc : eqCount t = 1
    · rw [buildKw]
      cases hs : splitOnEq t with
      | none => rfl
      | some kv =>
        apply ih
        rcases h with ⟨t', ht', hbad⟩
        rcases List.mem_cons.1 ht' with rfl | ht'
        · exact absurd hc hbad
        · exact ⟨t', ht', hbad⟩
    · rw [buildKw]
      have hs : splitOnEq t = none := by simp [splitOnEq, hc]
      rw [hs]

lemma lookupA_map_replace_self (l : List (PStr × PStr)) (k v : PStr)
    (h : l.any (fun p => decide (p.1 = k)) = true) :
    lookupA (l.map (fun p => if p.1 = k then (k, v) else p)) k = some v := by
  induction l with
  | nil => simp at h
  | cons p rest ih =>
    by_cases hp : p.1 = k
    · simp [lookupA, hp]
    · have hr : rest.any (fun p => decide (p.1 = k)) = true := by
        simp only [List.any_cons, Bool.or_eq_true, decide_eq_true_eq] at h
        rcases h with h | h
        · exact absurd h hp
        · exact h
      simp [lookupA, hp, ih hr]

lemma lookupA_map_replace_other (l : List (PStr × PStr)) (k v k' : PStr) (hk : k' ≠ k) :
    lookupA (l.map (fun p => if p.1 = k then (k, v) else p)) k' = lookupA l k' := by
  induction l with
  | nil => rfl
  | cons p rest ih =>
    have hkk' : k ≠ k' := fun he => hk he.symm
    by_cases hp : p.1 = k
    · have hpk' : p.1 ≠ k' := by rw [hp]; exact hkk'
      simp only [List.map_cons, if_pos hp, lookupA]
      rw [if_neg hkk', if_neg hpk', ih]
    · by_cases hp' : p.1 = k'
      · simp only [List.map_cons, if_neg hp, lookupA, if_pos hp']
      · simp only [List.map_cons, if_neg hp, lookupA, if_neg hp', ih]

lemma map_fst_replace (l : List (PStr × PStr)) (k v : PStr) :
    (l.map (fun p => if p.1 = k then (k, v) else p)).map Prod.fst = l.map Prod.fst := by
  induction l with
  | nil => rfl
  | cons p rest ih =>
    by_cases hp : p.1 = k <;> simp [hp, ih]

/-- C9: `set_attribute` raises a `TypeError` when either argument is not
text, raises `UnknownAttributeError` (`AttributeError` in the source) when
the name is not an existing `__dict__` key — the attribute set never grows —
and otherwise overwrites the value in place, leaving every other attribute
and the attribute order unchanged, which subsequent `format()` output
reflects. -/
theorem C9_set_attribute : ∀ (d : Device) (an av : PyVal),
    (an = PyVal.nonStr → Device.set_attribute d an av = Except.error AttrErr.typeErrorName) ∧
    (∀ n, an = PyVal.str n → av = PyVal.nonStr →
      Device.set_attribute d an av = Except.error AttrErr.typeErrorValue) ∧
    (∀ n v, an = PyVal.str n → av = PyVal.str v →
      d.attrs.any (fun p => decide (p.1 = n)) = false →
      Device.set_attribute d an av = Except.error (AttrErr.unknownAttribute n)) ∧
    (∀ n v, an = PyVal.str n → av = PyVal.str v →
      d.attrs.any (fun p => decide (p.1 = n)) = true →
      Device.set_attribute d an av =
        Except.ok (Device.mk d.kind (dictSet d.attrs n v)) ∧
      (dictSet d.attrs n v).map Prod.fst = d.attrs.map Prod.fst ∧
      lookupA (dictSet d.attrs n v) n = some v ∧
      ∀ k, k ≠ n → lookupA (dictSet d.attrs n v) k = lookupA d.attrs k) := by
  intro d an av
  refine ⟨?_, ?_, ?_, ?_⟩
  · rintro rfl
    rfl
  · rintro n rfl rfl
    rfl
  · rintro n v rfl rfl hn
    simp [Device.set_attribute, hn]
  · rintro n v rfl rfl hn
    refine ⟨by simp [Device.set_attribute, hn], ?_, ?_, ?_⟩
    · simp only [dictSet, hn, if_true]
      exact map_fst_replace d.attrs n v
    · simp only [dictSet, hn, if_true]
      exact lookupA_map_replace_self d.attrs n v hn
    · intro k hk
      simp only [dictSet, hn, if_true]
      exact lookupA_map_replace_other d.attrs n v k hk

/-- A concrete transistor used by several witnesses. -/
def devW : Device :=
  transistorMk [pstr "M1", pstr "VDD", pstr "X", pstr "A", pstr "VSS", pstr "nmos"] []

/-- Witness for C9: on a concrete transistor, setting the never-declared
attribute `Q` fails with the unknown-attribute error. -/
theorem C9_set_attribute_witness :
    Device.set_attribute devW (PyVal.str (pstr "Q")) (PyVal.str (pstr "Y")) =
      Except.error (AttrErr.unknownAttribute (pstr "Q")) :=
  (C9_set_attribute devW (PyVal.str (pstr "Q")) (PyVal.str (pstr "Y"))).2.2.1
    (pstr "Q") (pstr "Y") rfl rfl (by decide)

/-- C4: `set_pin_order` whitespace-splits its argument; when every candidate
name is a wired terminal value (any subset or permutation, including the
empty one) it replaces `pin_order`, otherwise it raises `InvalidPinError`
naming exactly the offending names and — since the exception precedes the
assignment — leaves `pin_order` unchanged (here: no updated cell is
produced). -/
theorem C4_set_pin_order : ∀ (c : Cell) (text : PStr),
    ((∀ p ∈ pySplit text, p ∈ validPins c) →
      Cell.set_pin_order c text =
        Except.ok (Cell.mk c.name c.description c.equation (pySplit text) c.instances)) ∧
    ((∃ p ∈ pySplit text, p ∉ validPins c) →
      ∃ off, Cell.set_pin_order c text = Except.error (PinErr.invalidPin off) ∧
        ∀ q, q ∈ off ↔ (q ∈ pySplit text ∧ q ∉ validPins c)) := by
  intro c text
  constructor
  · intro h
    have hall : (pySplit text).all (fun p => decide (p ∈ validPins c)) = true := by
      simp only [List.all_eq_true, decide_eq_true_eq]
      exact h
    simp [Cell.set_pin_order, hall]
  · intro h
    have hall : (pySplit text).all (fun p => decide (p ∈ validPins c)) = false := by
      rcases h with ⟨p, hp, hnp⟩
      simp only [List.all_eq_false, decide_eq_true_eq]
      exact ⟨p, hp, hnp⟩
    refine ⟨((pySplit text).filter (fun p => decide (p ∉ validPins c))).dedup,
            by simp [Cell.set_pin_order, hall], ?_⟩
    intro q
    simp [List.mem_dedup, List.mem_filter]

/-- A cell holding one transistor wired `S=VDD D=X G=A B=VSS` (the spec's
`set_pin_order` example). -/
def cellW : Cell := Cell.mk (pstr "W") (pstr "d") (pstr "e") [] [devW]

/-- Witness for C4: on the concrete cell, `set_pin_order("VDD X")` succeeds
and replaces the pin order. -/
theorem C4_set_pin_order_witness :
    Cell.set_pin_order cellW (pstr "VDD X") =
      Except.ok (Cell.mk cellW.name cellW.description cellW.equation
        (pySplit (pstr "VDD X")) cellW.instances) :=
  (C4_set_pin_order cellW (pstr "VDD X")).1 (by decide)

/-- C6 (amended): the pin-validity invariant is established only by
`set_pin_order` — whenever it succeeds, every name in the new `pin_order`
is a wired terminal value of the cell.  (Cell construction and the parser's
`.subckt` header perform no such check; see the counterexample.) -/
theorem C6_pin_validity : ∀ (c c' : Cell) (text : PStr),
    Cell.set_pin_order c text = Except.ok c' →
    ∀ p ∈ c'.pin_order, p ∈ validPins c' := by
  intro c c' text h p hp
  simp only [Cell.set_pin_order] at h
  split at h
  case isTrue hall =>
    injection h with h
    subst h
    simp only [List.all_eq_true, decide_eq_true_eq] at hall
    exact hall p hp
  case isFalse => simp at h

/-- The cell produced by `cellW.set_pin_order("VDD")`. -/
def cellW' : Cell := Cell.mk (pstr "W") (pstr "d") (pstr "e") [pstr "VDD"] [devW]

/-- Witness for C6: the invariant holds for the pin `VDD` after a successful
`set_pin_order` on the concrete cell. -/
theorem C6_pin_validity_witness : pstr "VDD" ∈ validPins cellW' :=
  C6_pin_validity cellW cellW' (pstr "VDD") rfl (pstr "VDD") (by decide)

/-- Input whose `.subckt` header declares pin `P`, which no device terminal
wires. -/
def c6doc : List PStr :=
  [pstr "* Description : d\n",
   pstr "* Equation : e\n",
   pstr ".subckt C P\n",
   pstr "M1 a b c d mod\n",
   pstr ".ends\n"]

/-- The cell the parser produces for `c6doc`. -/
def c6cell : Cell :=
  Cell.mk (pstr "C") (pstr "d") (pstr "e") [pstr "P"]
    [Device.mk DKind.transistor
      [(pstr "name", pstr "M1"), (pstr "S", pstr "a"), (pstr "D", pstr "b"),
       (pstr "G", pstr "c"), (pstr "B", pstr "d"), (pstr "Model", pstr "mod")]]

/-- Counterexample to C6 as stated: the parser accepts a `.subckt` header
whose pin `P` appears in no device terminal, so the produced cell violates
the claimed invariant at construction time. -/
theorem C6_counterexample :
    readLines c6doc = Except.ok [c6cell] ∧
    pstr "P" ∈ c6cell.pin_order ∧ pstr "P" ∉ validPins c6cell :=
  ⟨rfl, by decide, by decide⟩

/-- Renders one `__dict__` entry the way `__repr__` does. -/
def renderAttr (p : PStr × PStr) : PStr :=
  if p.1 ∈ positional_attributes then p.2 else p.1 ++ '=' :: p.2

lemma format_eq_render (d : Device) :
    Device.format d = kindName d.kind ++ pstr ": " ++
      List.intercalate (pstr " ") (d.attrs.map renderAttr) := rfl

/-- C7 (amended): `format()` renders an attribute bare exactly when its key
is in the combined `positional_attributes` set shared by both variants.  So
for every device whose extra-attribute keys avoid that combined set, the
output is the variant name, the positional values bare in declaration
order, then the extras as `key=value` in the order they were set — but an
extra whose key is the *other* variant's positional name renders bare (see
the counterexample). -/
theorem C7_format_shape : ∀ (kw : List (PStr × PStr)),
    (∀ q ∈ kw, q.1 ∉ positional_attributes) → (kw.map Prod.fst).Nodup →
    (∀ n pl mi mo : PStr,
      Device.format (diodeMk [n, pl, mi, mo] kw) =
        pstr "Diode: " ++ List.intercalate (pstr " ")
          ([n, pl, mi, mo] ++ kw.map (fun q => q.1 ++ '=' :: q.2))) ∧
    (∀ n s d g b mo : PStr,
      Device.format (transistorMk [n, s, d, g, b, mo] kw) =
        pstr "Transistor: " ++ List.intercalate (pstr " ")
          ([n, s, d, g, b, mo] ++ kw.map (fun q => q.1 ++ '=' :: q.2))) := by
  intro kw hfresh hnd
  have hkw : ∀ base : List (PStr × PStr), (∀ p ∈ base, p.1 ∈ positional_attributes) →
      kw.foldl (fun a q => dictSet a q.1 q.2) base = base ++ kw := by
    intro base hbase
    apply foldl_dictSet_fresh kw base ?_ hnd
    intro q hq p hp he
    exact hfresh q hq (he ▸ hbase p hp)
  have hrkw : kw.map renderAttr = kw.map (fun q => q.1 ++ '=' :: q.2) := by
    apply List.map_congr_left
    intro q hq
    exact if_neg (hfresh q hq)
  have hsubD : ∀ x ∈ diode_attr_names, x ∈ positional_attributes := by decide
  have hsubT : ∀ x ∈ transistor_attr_names, x ∈ positional_attributes := by decide
  constructor
  · intro n pl mi mo
    have hattrs : (diodeMk [n, pl, mi, mo] kw).attrs =
        diode_attr_names.zip [n, pl, mi, mo] ++ kw :=
      hkw _ (fun p hp => hsubD p.1 (List.of_mem_zip hp).1)
    rw [format_eq_render, hattrs, List.map_append, hrkw]
    have hpos : (diode_attr_names.zip [n, pl, mi, mo]).map renderAttr = [n, pl, mi, mo] := rfl
    rw [hpos]
    rfl
  · intro n s d g b mo
    have hattrs : (transistorMk [n, s, d, g, b, mo] kw).attrs =
        transistor_attr_names.zip [n, s, d, g, b, mo] ++ kw :=
      hkw _ (fun p hp => hsubT p.1 (List.of_mem_zip hp).1)
    rw [format_eq_render, hattrs, List.map_append, hrkw]
    have hpos : (transistor_attr_names.zip [n, s, d, g, b, mo]).map renderAttr =
        [n, s, d, g, b, mo] := rfl
    rw [hpos]
    rfl

/-- Witness for C7: a concrete transistor with one extra attribute `L=1u`
renders as the amended claim states. -/
theorem C7_format_shape_witness :
    Device.format (transistorMk
        [pstr "M1", pstr "a", pstr "b", pstr "c", pstr "d", pstr "mod"]
        [(pstr "L", pstr "1u")]) =
      pstr "Transistor: " ++ List.intercalate (pstr " ")
        ([pstr "M1", pstr "a", pstr "b", pstr "c", pstr "d", pstr "mod"] ++
          [(pstr "L", pstr "1u")].map (fun q => q.1 ++ '=' :: q.2)) :=
  (C7_format_shape [(pstr "L", pstr "1u")] (by decide) (by decide)).2
    (pstr "M1") (pstr "a") (pstr "b") (pstr "c") (pstr "d") (pstr "mod")

/-- A diode carrying an extra attribute whose key `S` is a *transistor*
positional name. -/
def d7 : Device := diodeMk [pstr "D1", pstr "a", pstr "b", pstr "mod"] [(pstr "S", pstr "x")]

/-- Counterexample to C7 as stated: the diode's extra attribute `S=x` is
rendered as the bare value `x` (no `S=` appears in the output), because the
bare-rendering test uses the positional-name set shared by both variants,
so an extra attribute can render as a bare positional value. -/
theorem C7_counterexample :
    read_diode (pstr "D1 a b mod S=x") = Except.ok d7 ∧
    Device.format d7 = pstr "Diode: D1 a b mod x" ∧
    containsSub (Device.format d7) (pstr "S=") = false :=
  ⟨rfl, rfl, rfl⟩

lemma diode_names_positional : ∀ x ∈ diode_attr_names, x ∈ positional_attributes := by decide

lemma transistor_names_positional : ∀ x ∈ transistor_attr_names, x ∈ positional_attributes := by
  decide

/-- C5: device-line parsing whitespace-splits the line; fewer than 6
(transistor) or 4 (diode) tokens raise the arity error, any remaining token
without exactly one `=` raises an error, and otherwise the positional
tokens become the fixed positional attributes in declaration order with the
remaining `k=v` pairs collected in order. -/
theorem C5_device_lines : ∀ line : PStr,
    ((pySplit line).length < 6 → read_transistor line = Except.error DevErr.typeErrorArity) ∧
    ((pySplit line).length < 4 → read_diode line = Except.error DevErr.typeErrorArity) ∧
    ((∃ t ∈ (pySplit line).drop 6, eqCount t ≠ 1) →
      ∃ e, read_transistor line = Except.error e) ∧
    ((∃ t ∈ (pySplit line).drop 4, eqCount t ≠ 1) →
      ∃ e, read_diode line = Except.error e) ∧
    (∀ n s d g b m kvs, pySplit line = [n, s, d, g, b, m] ++ kvs.map encodeKV →
      (∀ q ∈ kvs, '=' ∉ q.1 ∧ '=' ∉ q.2 ∧ q.1 ∉ transistor_param_names ∧
        q.1 ∉ positional_attributes) →
      (kvs.map Prod.fst).Nodup →
      read_transistor line = Except.ok
        (Device.mk DKind.transistor (transistor_attr_names.zip [n, s, d, g, b, m] ++ kvs))) ∧
    (∀ n pl mi mo kvs, pySplit line = [n, pl, mi, mo] ++ kvs.map encodeKV →
      (∀ q ∈ kvs, '=' ∉ q.1 ∧ '=' ∉ q.2 ∧ q.1 ∉ diode_param_names ∧
        q.1 ∉ positional_attributes) →
      (kvs.map Prod.fst).Nodup →
      read_diode line = Except.ok
        (Device.mk DKind.diode (diode_attr_names.zip [n, pl, mi, mo] ++ kvs))) := by
  intro line
  refine ⟨?_, ?_, ?_, ?_, ?_, ?_⟩
  · intro h
    simp only [read_transistor]
    rw [if_neg (by omega)]
  · intro h
    simp only [read_diode]
    rw [if_neg (by omega)]
  · intro hbad
    by_cases h6 : 6 ≤ (pySplit line).length
    · refine ⟨DevErr.valueError, ?_⟩
      simp only [read_transistor]
      rw [if_pos h6, buildKw_err ((pySplit line).drop 6) [] hbad]
    · rcases hbad with ⟨t, ht, _⟩
      rw [List.drop_eq_nil_of_le (by omega)] at ht
      simp at ht
  · intro hbad
    by_cases h4 : 4 ≤ (pySplit line).length
    · refine ⟨DevErr.valueError, ?_⟩
      simp only [read_diode]
      rw [if_pos h4, buildKw_err ((pySplit line).drop 4) [] hbad]
    · rcases hbad with ⟨t, ht, _⟩
      rw [List.drop_eq_nil_of_le (by omega)] at ht
      simp at ht
  · intro n s d g b m kvs hsplit hq hnd
    have hkvs : ∀ q ∈ kvs, '=' ∉ q.1 ∧ '=' ∉ q.2 :=
      fun q hq' => ⟨(hq q hq').1, (hq q hq').2.1⟩
    have htake : ([n, s, d, g, b, m] ++ kvs.map encodeKV).take 6 = [n, s, d, g, b, m] :=
      List.take_left' rfl
    have hdrop : ([n, s, d, g, b, m] ++ kvs.map encodeKV).drop 6 = kvs.map encodeKV :=
      List.drop_left' rfl
    have hlen : 6 ≤ ([n, s, d, g, b, m] ++ kvs.map encodeKV).length := by
      rw [List.length_append]
      simp
    have hany : kvs.any (fun q => decide (q.1 ∈ transistor_param_names)) = false := by
      simp only [List.any_eq_false, decide_eq_true_eq]
      exact fun q hq' => (hq q hq').2.2.1
    have hmk : transistorMk [n, s, d, g, b, m] kvs =
        Device.mk DKind.transistor (transistor_attr_names.zip [n, s, d, g, b, m] ++ kvs) := by
      unfold transistorMk
      rw [foldl_dictSet_fresh kvs _ ?_ hnd]
      intro q hq' p hp he
      exact (hq q hq').2.2.2 (he ▸ transistor_names_positional p.1 (List.of_mem_zip hp).1)
    simp only [read_transistor, hsplit]
    rw [if_pos hlen, hdrop, buildKw_encoded kvs [] hkvs,
        foldl_dictSet_fresh kvs [] (by intro q _ p hp; simp at hp) hnd, List.nil_append]
    simp [hany, htake, hmk]
  · intro n pl mi mo kvs hsplit hq hnd
    have hkvs : ∀ q ∈ kvs, '=' ∉ q.1 ∧ '=' ∉ q.2 :=
      fun q hq' => ⟨(hq q hq').1, (hq q hq').2.1⟩
    have htake : ([n, pl, mi, mo] ++ kvs.map encodeKV).take 4 = [n, pl, mi, mo] :=
      List.take_left' rfl
    have hdrop : ([n, pl, mi, mo] ++ kvs.map encodeKV).drop 4 = kvs.map encodeKV :=
      List.drop_left' rfl
    have hlen : 4 ≤ ([n, pl, mi, mo] ++ kvs.map encodeKV).length := by
      rw [List.length_append]
      simp
    have hany : kvs.any (fun q => decide (q.1 ∈ diode_param_names)) = false := by
      simp only [List.any_eq_false, decide_eq_true_eq]
      exact fun q hq' => (hq q hq').2.2.1
    have hmk : diodeMk [n, pl, mi, mo] kvs =
        Device.mk DKind.diode (diode_attr_names.zip [n, pl, mi, mo] ++ kvs) := by
      unfold diodeMk
      rw [foldl_dictSet_fresh kvs _ ?_ hnd]
      intro q hq' p hp he
      exact (hq q hq').2.2.2 (he ▸ diode_names_positional p.1 (List.of_mem_zip hp).1)
    simp only [read_diode, hsplit]
    rw [if_pos hlen, hdrop, buildKw_encoded kvs [] hkvs,
        foldl_dictSet_fresh kvs [] (by intro q _ p hp; simp at hp) hnd, List.nil_append]
    simp [hany, htake, hmk]

/-- Witness for C5: a transistor line with too few tokens raises the arity
error, and a full line with one extra parses to the expected device. -/
theorem C5_device_lines_witness :
    read_transistor (pstr "M1 a b c") = Except.error DevErr.typeErrorArity ∧
    read_transistor (pstr "M1 a b c d mod W=5") = Except.ok
      (Device.mk DKind.transistor
        (transistor_attr_names.zip
          [pstr "M1", pstr "a", pstr "b", pstr "c", pstr "d", pstr "mod"] ++
          [(pstr "W", pstr "5")])) :=
  ⟨(C5_device_lines (pstr "M1 a b c")).1 (by decide),
   (C5_device_lines (pstr "M1 a b c d mod W=5")).2.2.2.2.1
     (pstr "M1") (pstr "a") (pstr "b") (pstr "c") (pstr "d") (pstr "mod")
     [(pstr "W", pstr "5")] (by decide) (by decide) (by decide)⟩

/-- Membership in the missing-aspects list names exactly the false flags. -/
lemma mem_missingAspects (f : Flags) (k : PStr) :
    k ∈ missingAspects f ↔
      ((k = pstr "description" ∧ f.description = false) ∨
       (k = pstr "equation" ∧ f.equation = false) ∨
       (k = pstr "subckt" ∧ f.subckt = false) ∨
       (k = pstr "instances" ∧ f.instances = false)) := by
  obtain ⟨fd, fe, fs, fi⟩ := f
  cases fd <;> cases fe <;> cases fs <;> cases fi <;> simp [missingAspects]

/-- A successfully terminated block: the `.ends` line with all four flags
true appends the pending cell (capturing the accumulated devices), empties
the accumulator and resets the flags. -/
lemma processLine_ends_ok (s : RState) (L : PStr) (h : startsW L (pstr ".ends") = true)
    (hf : allFlags s.flags = true) (n de eq : PStr) (po : List PStr)
    (hn : s.cell_name = some n) (hd : s.description = some de)
    (he : s.equation = some eq) (hp : s.pin_order = some po) :
    processLine s L = Except.ok
      { s with finished := some true,
               cell_list := s.cell_list ++ [Cell.mk n de eq po s.instArg],
               instArg := [],
               flags := Flags.mk false false false false } := by
  rw [processLine_ends s L h]
  simp only [endsBranch]
  rw [if_pos hf, hn, hd, he, hp]

/-- C3: at a `.ends` line, if any completeness flag is false the parse
raises naming exactly the missing aspects (and no cell is appended, the
run aborting with the error); if all four are true the pending cell is
appended, the accumulator emptied and the flags reset. -/
theorem C3_ends_block : ∀ (s : RState) (L : PStr), startsW L (pstr ".ends") = true →
    (allFlags s.flags = false →
      processLine s L = Except.error (ReadErr.missing (missingAspects s.flags)) ∧
      ∀ k, k ∈ missingAspects s.flags ↔
        ((k = pstr "description" ∧ s.flags.description = false) ∨
         (k = pstr "equation" ∧ s.flags.equation = false) ∨
         (k = pstr "subckt" ∧ s.flags.subckt = false) ∨
         (k = pstr "instances" ∧ s.flags.instances = false))) ∧
    (allFlags s.flags = true →
      ∀ (n de eq : PStr) (po : List PStr),
        s.cell_name = some n → s.description = some de →
        s.equation = some eq → s.pin_order = some po →
        processLine s L = Except.ok
          { s with finished := some true,
                   cell_list := s.cell_list ++ [Cell.mk n de eq po s.instArg],
                   instArg := [],
                   flags := Flags.mk false false false false }) := by
  intro s L h
  constructor
  · intro hf
    constructor
    · rw [processLine_ends s L h]
      simp only [endsBranch]
      rw [if_neg (by simp [hf])]
    · intro k
      exact mem_missingAspects s.flags k
  · intro hf n de eq po hn hd he hp
    exact processLine_ends_ok s L h hf n de eq po hn hd he hp

/-- A one-device accumulator for the C3 witness. -/
def dev3 : Device :=
  Device.mk DKind.transistor
    [(pstr "name", pstr "M1"), (pstr "S", pstr "a"), (pstr "D", pstr "b"),
     (pstr "G", pstr "c"), (pstr "B", pstr "d"), (pstr "Model", pstr "mod")]

/-- A mid-parse state with all four flags true and a pending cell. -/
def s3 : RState :=
  RState.mk [] [dev3] (Flags.mk true true true true)
    (some (pstr "C")) (some (pstr "d")) (some (pstr "e")) (some [pstr "a"]) (some false)

/-- Witness for C3: processing `.ends` from the concrete complete state
appends the cell and resets the block state. -/
theorem C3_ends_block_witness :
    processLine s3 (pstr ".ends\n") = Except.ok
      { s3 with finished := some true,
                cell_list := s3.cell_list ++
                  [Cell.mk (pstr "C") (pstr "d") (pstr "e") [pstr "a"] s3.instArg],
                instArg := [],
                flags := Flags.mk false false false false } :=
  (C3_ends_block s3 (pstr ".ends\n") (by decide)).2 (by decide)
    (pstr "C") (pstr "d") (pstr "e") [pstr "a"] rfl rfl rfl rfl

/-- C8 (amended): a line matching none of the five recognized prefixes is a
no-op exactly when it is the single newline `"\n"`; every other such line —
including whitespace-only lines like `" \n"` — raises quoting the stripped
line. -/
theorem C8_line_classification : ∀ (s : RState) (L : PStr),
    startsW L (pstr "*") = false → startsW L (pstr ".subckt") = false →
    startsW L (pstr "M") = false → startsW L (pstr "D") = false →
    startsW L (pstr ".ends") = false →
    ((L = pstr "\n" → processLine s L = Except.ok { s with finished := some false }) ∧
     (L ≠ pstr "\n" → processLine s L = Except.error (ReadErr.badLine (pyStrip L)))) := by
  intro s L h1 h2 h3 h4 h5
  rw [processLine_other s L h1 h2 h3 h4 h5]
  constructor
  · rintro rfl
    rfl
  · intro hne
    simp [otherBranch, hne]

/-- Witness for C8: an unrecognized line fails quoting its stripped text. -/
theorem C8_line_classification_witness :
    processLine initState (pstr "Q1 a b\n") =
      Except.error (ReadErr.badLine (pstr "Q1 a b")) :=
  (C8_line_classification initState (pstr "Q1 a b\n")
    (by decide) (by decide) (by decide) (by decide) (by decide)).2 (by decide)

/-- An otherwise valid document containing a whitespace-only line `"  \n"`. -/
def c8doc : List PStr :=
  [pstr "* Description : d\n",
   pstr "* Equation : e\n",
   pstr ".subckt C a\n",
   pstr "M1 a b c d m\n",
   pstr "  \n",
   pstr ".ends\n"]

/-- Counterexample to C8 as stated: a line of only whitespace is not a
no-op — the parse aborts with the unrecognized-line error (whose quoted
stripped text is empty), because the source only accepts the exact line
`"\n"` as blank. -/
theorem C8_counterexample : readLines c8doc = Except.error (ReadErr.badLine []) := rfl

/-- C2 (amended): the end-of-input check fails with the no-terminator error
iff the literal last line of a nonempty input does not start with `.ends` —
the `finished` flag is reset on every line, including blank ones, so
trailing blank lines after `.ends` make the parse fail; an empty input also
fails, but through the unbound `finished` local rather than the structured
error. -/
theorem C2_terminator_check :
    readLines [] = Except.error ReadErr.unboundLocal ∧
    ∀ (front : List PStr) (L : PStr) (s : RState),
      runLines initState (front ++ [L]) = Except.ok s →
      ((readLines (front ++ [L]) = Except.error ReadErr.noTerminator ↔
          startsW L (pstr ".ends") = false) ∧
       (readLines (front ++ [L]) = Except.ok s.cell_list ↔
          startsW L (pstr ".ends") = true)) := by
  constructor
  · rfl
  · intro front L s hrun
    have hfc : readLines (front ++ [L]) = finalCheck s := by
      simp [readLines, hrun]
    rcases hh : runLines initState front with e | t
    · have h0 := runLines_append front [L] initState
      rw [hrun, hh] at h0
      simp at h0
    · have happ : runLines t [L] = Except.ok s := by
        have h0 := runLines_append front [L] initState
        rw [hrun, hh] at h0
        exact h0.symm
      have hstep : processLine t L = Except.ok s := by
        rcases hp : processLine t L with e | u
        · rw [show runLines t [L] = Except.error e from by simp [runLines, hp]] at happ
          simp at happ
        · rw [show runLines t [L] = Except.ok u from by simp [runLines, hp]] at happ
          injection happ with h2
          rw [h2]
      have hfin : s.finished = some (startsW L (pstr ".ends")) :=
        processLine_finished t L s hstep
      rw [hfc]
      cases hE : startsW L (pstr ".ends")
      · rw [hE] at hfin
        constructor <;> simp [finalCheck, hfin]
      · rw [hE] at hfin
        constructor <;> simp [finalCheck, hfin]

/-- The first four lines of a minimal valid document. -/
def c2front : List PStr :=
  [pstr "* Description : d\n",
   pstr "* Equation : e\n",
   pstr ".subckt C a\n",
   pstr "M1 a b c d mod\n"]

/-- The cell `c2front ++ [".ends\n"]` parses to. -/
def c2cell : Cell := Cell.mk (pstr "C") (pstr "d") (pstr "e") [pstr "a"] [dev3]

/-- The parser state right after the final `.ends` line of that document. -/
def s2 : RState :=
  RState.mk [c2cell] [] (Flags.mk false false false false)
    (some (pstr "C")) (some (pstr "d")) (some (pstr "e")) (some [pstr "a"]) (some true)

/-- Witness for C2: the concrete document ending in `.ends` parses to its
cell list. -/
theorem C2_terminator_check_witness :
    readLines (c2front ++ [pstr ".ends\n"]) = Except.ok s2.cell_list :=
  ((C2_terminator_check.2 c2front (pstr ".ends\n") s2 rfl).2).mpr rfl

/-- A valid document followed by one blank line. -/
def c2doc : List PStr := c2front ++ [pstr ".ends\n", pstr "\n"]

/-- Counterexample to C2 as stated: a document whose last structural line is
`.ends` but which ends with a blank line fails with the no-terminator
error, because `finished` is reset on the blank line too. -/
theorem C2_counterexample : readLines c2doc = Except.error ReadErr.noTerminator := rfl

/-- The spec's example inverter document. -/
def c1doc : List PStr :=
  [pstr "*      Description : inverter\n",
   pstr "* Equation : y=!a\n",
   pstr ".subckt INV VDD VSS A Y\n",
   pstr "M1 Y VDD A VSS nmos L=1u\n",
   pstr ".ends\n"]

/-- The transistor of the inverter example. -/
def c1dev : Device :=
  Device.mk DKind.transistor
    [(pstr "name", pstr "M1"), (pstr "S", pstr "Y"), (pstr "D", pstr "VDD"),
     (pstr "G", pstr "A"), (pstr "B", pstr "VSS"), (pstr "Model", pstr "nmos"),
     (pstr "L", pstr "1u")]

/-- The cell the inverter example parses to. -/
def c1cell : Cell :=
  Cell.mk (pstr "INV") (pstr "inverter") (pstr "y=!a")
    [pstr "VDD", pstr "VSS", pstr "A", pstr "Y"] [c1dev]

/-- C1 evaluated: the example document parses, but re-parsing the
serializer's own output fails with the no-terminator error — `write` ends
the file with `".ends\n\n"`, `readlines` turns that into a final blank
line, and the parser's `finished` flag is reset on that blank line, so
`parse(serialize(parse(D)))` never succeeds. -/
theorem C1_roundtrip_reparse_fails :
    readLines c1doc = Except.ok [c1cell] ∧
    readLines (pyReadlines (writeContent [c1cell])) =
      Except.error ReadErr.noTerminator :=
  ⟨rfl, rfl⟩

/-- A heap of Python list objects, indexed by reference. -/
def Store := Nat → List Device

/-- `Cell.__init__` against the heap: `copy.deepcopy(instances)` captures
the value currently referenced by `r`; the cell keeps no reference into the
store. -/
def cellInitStore (s : Store) (n de eq : PStr) (po : List PStr) (r : Nat) : Cell :=
  Cell.mk n de eq po (s r)

/-- `list.clear()` on the referenced list (the parser's
`instances.clear()`). -/
def storeClear (s : Store) (r : Nat) : Store := fun i => if i = r then [] else s i

/-- C10: a cell deep-copies its instance list at construction: the cell
captures the referenced value, clearing the source list afterwards leaves
the referenced list empty while the cell is a function of the captured
value only; and in the parser, processing `.ends` empties the accumulator
while the appended cell keeps the accumulated devices. -/
theorem C10_deepcopy_ownership : ∀ (s1 s2 : Store) (r : Nat) (n de eq : PStr)
    (po : List PStr) (s : RState) (L : PStr),
    startsW L (pstr ".ends") = true → allFlags s.flags = true →
    s.cell_name = some n → s.description = some de → s.equation = some eq →
    s.pin_order = some po →
    ((cellInitStore s1 n de eq po r).instances = s1 r ∧
     storeClear s1 r r = [] ∧
     (s1 r = s2 r → cellInitStore s1 n de eq po r = cellInitStore s2 n de eq po r) ∧
     processLine s L = Except.ok
       { s with finished := some true,
                cell_list := s.cell_list ++ [Cell.mk n de eq po s.instArg],
                instArg := [],
                flags := Flags.mk false false false false }) := by
  intro s1 s2 r n de eq po s L hL hf hn hd he hp
  refine ⟨rfl, by simp [storeClear], ?_,
          processLine_ends_ok s L hL hf n de eq po hn hd he hp⟩
  intro hr
  simp [cellInitStore, hr]

/-- A one-element heap for the C10 witness. -/
def store10 : Store := fun _ => [dev3]

/-- Witness for C10: the concrete cell captures the referenced device
list. -/
theorem C10_deepcopy_ownership_witness :
    (cellInitStore store10 (pstr "C") (pstr "d") (pstr "e") [pstr "a"] 0).instances =
      store10 0 :=
  (C10_deepcopy_ownership store10 store10 0 (pstr "C") (pstr "d") (pstr "e") [pstr "a"]
    s3 (pstr ".ends\n") (by decide) (by decide) rfl rfl rfl rfl).1
